import Mathlib

/-!
Verification of `stage2.py` from the tarball-client repository.

This file gives a shallow embedding of the pure content of the functions in
`stage2.py` (strings are modelled as `List Char`, filesystem paths either as
`List Char` or as lists of path components, external subprocess outcomes as
explicit parameters) and proves or refutes the frozen claims about them.
-/

/-- Exceptions that can be raised by the code under study.
`commonError` models the domain-specific `common.Error` class (its definition
lives in `common.py`, outside `src/`; per the spec it is the single
domain-specific fatal-error kind, distinct from the standard-library
exception types).  `calledProcessError` models
`subprocess.CalledProcessError(returncode, cmd)`.  `otherError` stands for any
other exception type (named by its Python class name). -/
inductive PyExc where
  | commonError (msg : String)
  | calledProcessError (returncode : Int) (cmd : String)
  | otherError (name : String)
deriving DecidableEq, Repr

deriving instance DecidableEq for Except

/-- Is an exception an instance of the domain-specific `common.Error` class?
(`except Error` in `make_stage2_tarball` catches exactly these.) -/
def isDomainError : PyExc → Bool
  | PyExc.commonError _ => true
  | _ => false

/-! ## Model of `fix_osg_version` (stage2.py lines 110-130)

`fix_osg_version` opens `etc/osg-version`, reads its first line with
`readline()`, validates it, optionally splices a `-tarball[-relnum]` marker
after the leading `[0-9.]+` prefix via
`re.sub(r'^([0-9.]+)(?!-tarball)', ...)`, and overwrites the file with the
new version string (and nothing else). -/

/-- Python `file.readline()`: the prefix of the text up to and including the
first newline, or the whole text when it has no newline. -/
def readline : List Char → List Char
  | [] => []
  | c :: rest => if c = '\n' then ['\n'] else c :: readline rest

/-- A character matched by the regex class `[0-9.]`. -/
def isVerChar (c : Char) : Bool := c.isDigit || c = '.'

/-- `reMatchVer s` models `re.match(r'[0-9.]+', s) is not None`: the string
must start with at least one `[0-9.]` character. -/
def reMatchVer : List Char → Bool
  | [] => false
  | c :: _ => isVerChar c

/-- Length of the maximal leading run of `[0-9.]` characters (the greedy
match of the group `([0-9.]+)`). -/
def verPrefixLen : List Char → Nat
  | [] => 0
  | c :: rest => if isVerChar c then verPrefixLen rest + 1 else 0

/-- `startsWithL pre s` : does `s` start with `pre`?  (Models Python
`str.startswith` on list-of-character strings.) -/
def startsWithL {α : Type} [DecidableEq α] : List α → List α → Bool
  | [], _ => true
  | _ :: _, [] => false
  | p :: ps, c :: cs => p = c && startsWithL ps cs

/-- `hasSub needle hay` : does `needle` occur as a contiguous substring of
`hay`?  (Models the Python `in` operator on strings.) -/
def hasSub {α : Type} [DecidableEq α] (needle : List α) : List α → Bool
  | [] => needle.isEmpty
  | c :: rest => startsWithL needle (c :: rest) || hasSub needle rest

/-- The characters of `"tarball"`. -/
def tarballChars : List Char := ['t', 'a', 'r', 'b', 'a', 'l', 'l']

/-- The characters of `"-tarball"` (the literal in the negative lookahead
`(?!-tarball)` and the start of the replacement text). -/
def tbChars : List Char := '-' :: tarballChars

/-- One decimal digit as a character (used to model Python `str(relnum)`). -/
def digitChar (d : Nat) : Char :=
  if d = 0 then '0' else if d = 1 then '1' else if d = 2 then '2'
  else if d = 3 then '3' else if d = 4 then '4' else if d = 5 then '5'
  else if d = 6 then '6' else if d = 7 then '7' else if d = 8 then '8'
  else if d = 9 then '9' else '*'

/-- Fuelled decimal printer; `fuel` bounds the number of digits. -/
def natCharsAux : Nat → Nat → List Char → List Char
  | 0, _, acc => acc
  | fuel + 1, n, acc =>
    if n < 10 then digitChar n :: acc
    else natCharsAux fuel (n / 10) (digitChar (n % 10) :: acc)

/-- Decimal representation of a natural number, modelling Python
`str(relnum)` for a non-negative release number. -/
def natChars (n : Nat) : List Char := natCharsAux (n + 1) n []

/-- `_relnum` in `fix_osg_version`: `"-" + str(relnum)` when `relnum` is
truthy (nonzero), else the empty string. -/
def relSuffix (relnum : Nat) : List Char :=
  if relnum = 0 then [] else '-' :: natChars relnum

/-- The index at which the regex engine matches `^([0-9.]+)(?!-tarball)`:
the greedy group first tries the whole leading `[0-9.]+` run and backtracks
one character at a time while the negative lookahead `(?!-tarball)` fails.
`chooseKAux s k` returns the largest `j ≤ k`, `j ≥ 1`, such that the text
after the first `j` characters does not start with `-tarball` (`none` when
every split fails, in which case the regex does not match and `re.sub`
returns the string unchanged). -/
def chooseKAux (s : List Char) : Nat → Option Nat
  | 0 => none
  | k + 1 =>
    if startsWithL tbChars (s.drop (k + 1)) then chooseKAux s k
    else some (k + 1)

/-- `re.sub(r'^([0-9.]+)(?!-tarball)', r'\1-tarball%s' % _relnum, s)`. -/
def reSubTarball (rel : List Char) (s : List Char) : List Char :=
  match chooseKAux s (verPrefixLen s) with
  | none => s
  | some k => s.take k ++ tbChars ++ rel ++ s.drop k

/-- `fix_osg_version` as a transformation of the content of
`etc/osg-version`: returns the new file content (the file is overwritten
with exactly `new_version_str`), or the raised `common.Error`. -/
def fix_osg_version (relnum : Nat) (content : List Char) : Except PyExc (List Char) :=
  let version_str := readline content
  if version_str.isEmpty then
    Except.error (PyExc.commonError "Could not read version string")
  else if !(reMatchVer version_str) then
    Except.error (PyExc.commonError "does not contain version")
  else if hasSub tarballChars version_str then
    Except.ok version_str
  else
    Except.ok (reSubTarball (relSuffix relnum) version_str)

/-! ## Model of `write_package_list_file` (stage2.py lines 31-49)

Runs `rpm --root <stage_dir_abs> -qa`; a non-zero exit raises
`subprocess.CalledProcessError(retcode, ' '.join(cmd))` (note: not the
domain `common.Error`).  Otherwise the output is split into whitespace
separated package identifiers, the caller-supplied exclude list is
subtracted, and the sorted remainder is written newline-joined with a
trailing newline to `os.path.join(stage_dir_abs, 'osg/rpm-versions.txt')`.
The subprocess outcome (`retcode`, `output`) is passed as parameters. -/

/-- A Python whitespace character (the separators of `str.split()`). -/
def isSpace (c : Char) : Bool :=
  c = ' ' || c = '\n' || c = '\t' || c = '\r' || c = '\x0b' || c = '\x0c'

/-- Worker for `pySplit`; `acc` holds the current in-progress word
(reversed). -/
def splitWsAux : List Char → List Char → List (List Char)
  | [], acc => if acc.isEmpty then [] else [acc.reverse]
  | c :: rest, acc =>
    if isSpace c then
      (if acc.isEmpty then splitWsAux rest [] else acc.reverse :: splitWsAux rest [])
    else splitWsAux rest (c :: acc)

/-- Python `s.split()` (no argument): split on runs of whitespace, with no
empty words.  `s.strip().split()` in the source is the same function, since
`split()` already ignores leading and trailing whitespace. -/
def pySplit (s : List Char) : List String :=
  (splitWsAux s []).map (fun w => String.mk w)

/-- Insert `a` into `l` in front of the first element `b` with `le a b`.
Building block of the stable insertion sort `sortLe`. -/
def insertLe {α : Type} (le : α → α → Bool) (a : α) : List α → List α
  | [] => [a]
  | b :: bs => if le a b then a :: b :: bs else b :: insertLe le a bs

/-- Stable insertion sort.  Python's `sorted` / `list.sort` are stable
sorts, and a stable sort against a total preorder has a unique result, so
this is an exact model of the sort used in `stage2.py` (both the plain
`sorted(package_set)` and `patch_files.sort(cmp=_cmp_basename)`). -/
def sortLe {α : Type} (le : α → α → Bool) : List α → List α
  | [] => []
  | x :: xs => insertLe le x (sortLe le xs)

/-- Lexicographic `<=` on code points for list-of-character strings. -/
def charListLe : List Char → List Char → Bool
  | [], _ => true
  | _ :: _, [] => false
  | a :: as, b :: bs => if a = b then charListLe as bs else decide (a.toNat < b.toNat)

/-- Python string `<=` (lexicographic on code points), as a Bool. -/
def strLeB (a b : String) : Bool := charListLe a.data b.data

/-- `' '.join(cmd)` for `cmd = ["rpm", "--root", stage_dir_abs, "-qa"]`. -/
def rpmCmdString (stage_dir_abs : String) : String :=
  "rpm --root " ++ stage_dir_abs ++ " -qa"

/-- `write_package_list_file`.  On success returns the pair (path written,
file content); on a non-zero rpm exit returns the raised exception (and no
file is written). -/
def write_package_list_file (stage_dir_abs : String) (rpmRetcode : Int)
    (rpmOutput : List Char) (exclude_list : List String) :
    Except PyExc (String × String) :=
  if rpmRetcode ≠ 0 then
    Except.error (PyExc.calledProcessError rpmRetcode (rpmCmdString stage_dir_abs))
  else
    let package_list := ((pySplit rpmOutput).dedup).filter (fun w => !(exclude_list.contains w))
    Except.ok (stage_dir_abs ++ "/osg/rpm-versions.txt",
      String.intercalate "\n" (sortLe strLeB package_list) ++ "\n")

/-! ## Model of `_cmp_basename` / `patch_installed_packages` ordering
(stage2.py lines 69-107)

`patch_installed_packages` collects `glob.glob(os.path.join(d, "*.patch"))`
for each patch directory `d` in order, concatenates the results, and sorts
the combined list with `patch_files.sort(cmp=_cmp_basename)`, which compares
only `os.path.basename` of each path.  A collected patch file is modelled as
the pair of the directory it came from and its basename (for a path
`d ++ "/" ++ b` returned by glob, `os.path.basename` is exactly `b`). -/

structure PatchFile where
  dir : String
  base : String
deriving DecidableEq, Repr

/-- The concatenated glob results, in directory encounter order;
`globPatches d` models the list `glob.glob(os.path.join(d, "*.patch"))`. -/
def collectPatchFiles (patch_dirs : List String) (globPatches : String → List String) :
    List PatchFile :=
  patch_dirs.flatMap (fun d => (globPatches d).map (fun b => PatchFile.mk d b))

/-- `_cmp_basename` as a boolean `le`: compare basenames only. -/
def patchLe (a b : PatchFile) : Bool := strLeB a.base b.base

/-- The order in which `patch_installed_packages` applies patches. -/
def patch_order (patch_dirs : List String) (globPatches : String → List String) :
    List PatchFile :=
  sortLe patchLe (collectPatchFiles patch_dirs globPatches)

/-! ## Model of `_write_exclude_list` and `tar_stage_dir`
(stage2.py lines 175-229) -/

/-- Python `line.lstrip('./')`: remove every leading character that is `'.'`
or `'/'` (lstrip takes a set of characters, not a prefix). -/
def lstripDotSlash (s : List Char) : List Char :=
  s.dropWhile (fun c => c = '.' || c = '/')

/-- `os.path.join(a, b)` for a single relative-or-absolute component `b`:
an absolute `b` discards `a`. -/
def pyJoin (a b : List Char) : List Char :=
  if startsWithL ['/'] b then b else if a.isEmpty then b else a ++ '/' :: b

/-- `_write_exclude_list` (source name `_write_exclude_list`): the list of
pattern lines written to the exclude file — each baseline file-list line
`lstrip`ped of leading `./` characters and joined under `prepend_dir`,
followed by the extra excludes joined under `prepend_dir`.  (In the source
the first group keeps each line's trailing newline and the second appends
`'\n'`; the model holds the lines without their newline terminators.) -/
def write_exclude_list (filelistLines : List (List Char)) (prepend_dir : List Char)
    (extra_excludes : List (List Char)) : List (List Char) :=
  filelistLines.map (fun l => pyJoin prepend_dir (lstripDotSlash l))
    ++ extra_excludes.map (fun e => pyJoin prepend_dir e)

/-- The fixed deny-list `excludes` of `tar_stage_dir`, verbatim. -/
def denyListPatterns : List (List Char) :=
  ["var/log/yum.log".data,
   "tmp/*".data,
   "var/cache/yum/*".data,
   "var/lib/rpm/*".data,
   "var/lib/yum/*".data,
   "var/tmp/*".data,
   "dev/*".data,
   "proc/*".data,
   "etc/rc.d/rc?.d".data,
   "etc/alternatives".data,
   "var/lib/alternatives".data,
   "usr/bin/[[]".data,
   "usr/share/man/man1/[[].1.gz".data,
   "bin/dbus*".data,
   "lib/libcap*".data,
   "lib/dbus*".data,
   "lib/security/pam*.so".data,
   "lib64/libcap*".data,
   "lib64/dbus*".data,
   "lib64/security/pam*.so".data,
   "usr/bin/gnome*".data,
   "*~".data,
   "stage1_rpmlist".data]

/-- Fuelled glob matcher: `*` matches any run of characters (including `/`,
as GNU tar exclusion patterns do by default), `?` matches one character,
`[k]` matches the single character `k` (enough for the `[[]` patterns of the
deny list), any other pattern character matches itself.  The fuel
`pat.length + s.length + 1` strictly exceeds the drop in every recursive
call. -/
def globMatchAux : Nat → List Char → List Char → Bool
  | 0, _, _ => false
  | fuel + 1, pat, s =>
    match pat, s with
    | [], rest => rest.isEmpty
    | '*' :: ps, [] => globMatchAux fuel ps []
    | '*' :: ps, c :: cs => globMatchAux fuel ps (c :: cs) || globMatchAux fuel ('*' :: ps) cs
    | '[' :: k :: ']' :: ps, c :: cs => (k = c) && globMatchAux fuel ps cs
    | '?' :: ps, _ :: cs => globMatchAux fuel ps cs
    | p :: ps, c :: cs => (p = c) && globMatchAux fuel ps cs
    | _ :: _, [] => false

/-- Glob match of a whole pattern against a whole name. -/
def globMatch (pat s : List Char) : Bool :=
  globMatchAux (pat.length + s.length + 1) pat s

/-- The proper suffixes of a path that start just after a `/`. -/
def suffixesAfterSlash : List Char → List (List Char)
  | [] => []
  | c :: rest =>
    if c = '/' then rest :: suffixesAfterSlash rest else suffixesAfterSlash rest

/-- Modelled from the spec: GNU tar `--exclude-from` matching (tar is the
external archive tool).  With tar's defaults for exclusion patterns
(`--no-anchored`), a pattern excludes a member when it glob-matches the
full member name or a suffix starting at a `/` boundary. -/
def tarExcluded (pat name : List Char) : Bool :=
  (name :: suffixesAfterSlash name).any (fun s => globMatch pat s)

/-- `tar_stage_dir`, restricted to what it archives.  `stageFiles` are the
paths inside the staging directory, relative to it; the archive members are
those paths prefixed with the staging directory's basename (tar runs as
`tar -C <parent> -czf <tarball> <base>`).  When the optional
`stage1_filelist` exists, its lines are merged with the deny-list by
`_write_exclude_list` and passed via `--exclude-from`, and members matching
any pattern are excluded; when it is absent, **no** `--exclude-from` option
is passed, so nothing is excluded.  Returns the archive members and the
exclude-file contents (if one was written). -/
def tar_stage_dir (stage_dir_base : List Char) (stageFiles : List (List Char))
    (stage1Filelist : Option (List (List Char))) :
    List (List Char) × Option (List (List Char)) :=
  let members := stageFiles.map (fun f => stage_dir_base ++ '/' :: f)
  match stage1Filelist with
  | some lines =>
    let exclude_list := write_exclude_list lines stage_dir_base denyListPatterns
    (members.filter (fun m => !(exclude_list.any (fun pat => tarExcluded pat m))),
      some exclude_list)
  | none => (members, none)

/-! ## Model of `make_stage2_tarball` (stage2.py lines 279-329)

The build steps run strictly in sequence; the first exception aborts the
rest.  Each step's outcome is supplied as a parameter (`Except.ok ()` for a
step that completes, `Except.error e` for a step that raises `e`).  The
function body is wrapped in `try: ... return True / except Error as err:
errormsg(str(err))` — note the except-block has **no** `return` statement,
so after logging it falls off the end of the function and Python returns
`None`. -/

/-- A value `make_stage2_tarball` can return.  `pyFalse` is never produced
by the code; it is included so the claim "returns False" is statable. -/
inductive PyRet where
  | pyTrue
  | pyFalse
  | pyNone
deriving DecidableEq, Repr

/-- Python truthiness of a `PyRet` (`bool(value)`). -/
def pyTruthy : PyRet → Bool
  | PyRet.pyTrue => true
  | _ => false

/-- Run the build steps in order; the first raised exception propagates. -/
def runSteps : List (Except PyExc Unit) → Except PyExc Unit
  | [] => Except.ok ()
  | s :: rest =>
    match s with
    | Except.ok _ => runSteps rest
    | Except.error e => Except.error e

/-- `make_stage2_tarball`: returns the function result (or the uncaught
exception) paired with the list of messages logged via `errormsg`. -/
def make_stage2_tarball (steps : List (Except PyExc Unit)) :
    Except PyExc PyRet × List String :=
  match runSteps steps with
  | Except.ok _ => (Except.ok PyRet.pyTrue, [])
  | Except.error e =>
    match e with
    | PyExc.commonError msg => (Except.ok PyRet.pyNone, [msg])
    | e2 => (Except.error e2, [])

/-! ## Model of the working-directory discipline (stage2.py lines 93-107 and
259-276)

`patch_installed_packages` and `remove_empty_dirs_from_tarball` both save
`os.getcwd()`, `os.chdir` somewhere inside a `try:` block, and restore the
saved directory in the `finally:` block.  The process state is reduced to
the current working directory; subprocess exit codes are parameters. -/

structure ProcState where
  cwd : String
deriving DecidableEq, Repr

/-- `os.chdir`. -/
def os_chdir (d : String) (_ : ProcState) : ProcState := ProcState.mk d

/-- Python `try: body finally: fin`: the finalizer runs on the state left by
the body whether the body returned or raised, and the body's outcome (value
or exception) is then delivered. -/
def tryFinallyUnit (body : ProcState → Except PyExc Unit × ProcState)
    (fin : ProcState → ProcState) (st : ProcState) :
    Except PyExc Unit × ProcState :=
  let r := body st
  (r.1, fin r.2)

/-- The patch-application loop: `subprocess.call(['patch', ...])` per file
(outcomes supplied as `(patch_file, returncode)` pairs, in sorted order);
the first non-zero return raises `common.Error`. -/
def applyPatchFiles : List (String × Int) → Except PyExc Unit
  | [] => Except.ok ()
  | (name, err) :: rest =>
    if err ≠ 0 then
      Except.error (PyExc.commonError ("patch file " ++ name ++ " failed to apply"))
    else applyPatchFiles rest

/-- `patch_installed_packages`, reduced to its working-directory behaviour:
`oldwd = os.getcwd()`, then inside `try:` a `chdir` to the staging root and
the patch loop, with `finally: os.chdir(oldwd)`. -/
def patch_installed_packages (stage_dir_abs : String)
    (patchResults : List (String × Int)) (st : ProcState) :
    Except PyExc Unit × ProcState :=
  let oldwd := st.cwd
  tryFinallyUnit
    (fun s => (applyPatchFiles patchResults, os_chdir stage_dir_abs s))
    (os_chdir oldwd) st

/-- `remove_empty_dirs_from_tarball`, reduced to its working-directory
behaviour: `oldcwd = os.getcwd()`, then inside `try:` a `chdir` into the
temporary extract dir, `tar -xzf` (check_call: non-zero raises
`CalledProcessError`), `find -delete` (plain call: exit code ignored),
re-pack `tar -czf` (check_call), with `finally: os.chdir(oldcwd)` (the
`finally` also removes the extract dir, which is outside this state). -/
def remove_empty_dirs_from_tarball (extract_dir : String)
    (extractRet findRet repackRet : Int) (st : ProcState) :
    Except PyExc Unit × ProcState :=
  let oldcwd := st.cwd
  tryFinallyUnit
    (fun s =>
      let s1 := os_chdir extract_dir s
      if extractRet ≠ 0 then
        (Except.error (PyExc.calledProcessError extractRet "tar -xzf"), s1)
      else
        let _ := findRet
        if repackRet ≠ 0 then
          (Except.error (PyExc.calledProcessError repackRet "tar -czf"), s1)
        else (Except.ok (), s1))
    (os_chdir oldcwd) st

/-! ## Model of `fix_alternatives_symlinks` (stage2.py lines 232-252)

Paths are lists of components; a filesystem is a partial map from absolute
paths to entries.  A symlink target is stored as the flag "is absolute"
plus its components.  Key source correspondences:

* `os.path.join(stage_dir_abs, linkpath.lstrip('/'))` equals
  `stage_dir_abs ++ comps` whether `linkpath` is absolute or relative,
  because `lstrip('/')` removes the leading slashes before joining.
* `linkpath.startswith('/etc/alternatives')` is modelled at component
  granularity: the target is absolute and its components start with
  `["etc", "alternatives"]`.
* `os.path.exists` is modelled as "the map has an entry at that path"; the
  claim's hypotheses make the final target a regular file, for which this
  agrees with Python (symlink-following at the final target would leave the
  modelled filesystem).
* `os.walk(os.path.join(stage_dir_abs, 'usr'))` file enumeration is the
  `walkFiles` parameter. -/

inductive FSEntry where
  | file
  | dir
  | symlink (isAbs : Bool) (comps : List String)
deriving DecidableEq, Repr

/-- A filesystem: absolute component-path → entry. -/
def FS := List String → Option FSEntry

/-- The components of the absolute indirection directory `/etc/alternatives`. -/
def etcAlternativesComps : List String := ["etc", "alternatives"]

/-- `linkpath.startswith('/etc/alternatives')` (component-granular). -/
def targetIsEtcAlternatives (isAbs : Bool) (comps : List String) : Bool :=
  isAbs && startsWithL etcAlternativesComps comps

/-- Length of the longest common prefix of two component lists (the
component-wise common prefix used by `os.path.relpath`). -/
def commonPrefixLen {α : Type} [DecidableEq α] : List α → List α → Nat
  | a :: as, b :: bs => if a = b then commonPrefixLen as bs + 1 else 0
  | _, _ => 0

/-- `os.path.relpath(path, start)` on component lists: climb out of the
non-shared part of `start` with `..` entries, then descend into the
non-shared part of `path`; equal paths give `['.']` (`os.curdir`). -/
def relpathComps (path start : List String) : List String :=
  let i := commonPrefixLen path start
  let up := List.replicate (start.length - i) (".." : String)
  let rest := path.drop i
  if (up ++ rest).isEmpty then ["."] else up ++ rest

/-- Resolve a relative component path against an absolute starting
directory: `..` pops a component, `.` is skipped, anything else descends. -/
def resolveRel (start : List String) : List String → List String
  | [] => start
  | c :: rest =>
    if c = ".." then resolveRel start.dropLast rest
    else if c = "." then resolveRel start rest
    else resolveRel (start ++ [c]) rest

/-- The guard chain of the inner loop of `fix_alternatives_symlinks` for
one walked file `afilepath`: `none` when the file is skipped (not a
symlink; target not under `/etc/alternatives`; the alternatives path inside
the staging root not a symlink — "broken symlink to alternatives?" warning;
final target missing — "broken symlink from alternatives?" warning), and
`some new_linkpath` when the body reaches the `os.unlink`/`os.symlink`
pair, with `new_linkpath = os.path.relpath(final_target,
os.path.dirname(afilepath))`. -/
def altNewTarget (stage_dir_abs : List String) (fs : FS) (afilepath : List String) :
    Option (List String) :=
  match fs afilepath with
  | some (FSEntry.symlink isAbs comps) =>
    if targetIsEtcAlternatives isAbs comps then
      let stage_linkpath := stage_dir_abs ++ comps
      match fs stage_linkpath with
      | some (FSEntry.symlink _ comps2) =>
        let stage_alternatives_linkpath := stage_dir_abs ++ comps2
        if (fs stage_alternatives_linkpath).isSome then
          some (relpathComps stage_alternatives_linkpath afilepath.dropLast)
        else none
      | _ => none
    else none
  | _ => none

/-- The body of the inner loop: when the guards pass, unlink `afilepath` and
re-create it as a relative symlink to the computed target; otherwise leave
the filesystem unchanged. -/
def processAltFile (stage_dir_abs : List String) (fs : FS) (afilepath : List String) : FS :=
  match altNewTarget stage_dir_abs fs afilepath with
  | some new_linkpath =>
    fun p => if p = afilepath then some (FSEntry.symlink false new_linkpath) else fs p
  | none => fs

/-- `fix_alternatives_symlinks`: process every walked file in order. -/
def fix_alternatives_symlinks (stage_dir_abs : List String)
    (walkFiles : List (List String)) (fs : FS) : FS :=
  walkFiles.foldl (fun acc p => processAltFile stage_dir_abs acc p) fs

/-- A small concrete staging filesystem realising the spec's example chain
`usr/bin/x -> /etc/alternatives/x -> /usr/bin/x-real` under the staging
root `/r/stage2`. -/
def c5WitnessFS : FS := fun p =>
  if p = ["r", "stage2", "usr", "bin", "x"] then
    some (FSEntry.symlink true ["etc", "alternatives", "x"])
  else if p = ["r", "stage2", "etc", "alternatives", "x"] then
    some (FSEntry.symlink true ["usr", "bin", "x-real"])
  else if p = ["r", "stage2", "usr", "bin", "x-real"] then some FSEntry.file
  else none

/-! ## Theorems -/

/-- Claim C9: on every exit path of `patch_installed_packages` and of
`remove_empty_dirs_from_tarball` — normal return or exception at any point
after the working directory was changed — the process current working
directory is restored to the value it had on entry (the `finally:` blocks
re-`chdir` to the saved directory). -/
theorem c9_cwd_restored (stage_dir_abs extract_dir : String)
    (patchResults : List (String × Int)) (extractRet findRet repackRet : Int)
    (st : ProcState) :
    (patch_installed_packages stage_dir_abs patchResults st).2.cwd = st.cwd
    ∧ (remove_empty_dirs_from_tarball extract_dir extractRet findRet repackRet st).2.cwd = st.cwd :=
  ⟨rfl, rfl⟩

/-- Claim C2 (counterexample): when a step raises the domain `common.Error`,
`make_stage2_tarball` does NOT return the boolean `False`: the `except
Error:` block only logs and falls off the end of the function, so the
function returns `None`. -/
theorem c2_counterexample :
    make_stage2_tarball [Except.error (PyExc.commonError "boom")]
      = (Except.ok PyRet.pyNone, ["boom"])
    ∧ (make_stage2_tarball [Except.error (PyExc.commonError "boom")]).1
      ≠ Except.ok PyRet.pyFalse := by
  constructor <;> decide

/-- Claim C2 (amended): if any step raises `common.Error`, the error is
caught at top level, logged via `errormsg`, and the function returns `None`
(which is falsy, but is not the boolean `False`); on success it returns
`True`; any exception of a different type propagates out uncaught. -/
theorem c2_make_stage2_tarball_error_handling (steps : List (Except PyExc Unit)) :
    (runSteps steps = Except.ok () →
      make_stage2_tarball steps = (Except.ok PyRet.pyTrue, []))
    ∧ (∀ msg, runSteps steps = Except.error (PyExc.commonError msg) →
      make_stage2_tarball steps = (Except.ok PyRet.pyNone, [msg])
        ∧ pyTruthy PyRet.pyNone = false)
    ∧ (∀ e, runSteps steps = Except.error e → isDomainError e = false →
      make_stage2_tarball steps = (Except.error e, [])) := by
  refine ⟨?_, ?_, ?_⟩
  · intro h
    unfold make_stage2_tarball
    rw [h]
  · intro msg h
    unfold make_stage2_tarball
    rw [h]
    exact ⟨rfl, rfl⟩
  · intro e h he
    unfold make_stage2_tarball
    rw [h]
    cases e
    · simp [isDomainError] at he
    · rfl
    · rfl

/-- Witness for the amended C2 theorem, at concrete step lists covering the
`common.Error`, success, and foreign-exception branches. -/
theorem c2_make_stage2_tarball_error_handling_witness :
    (make_stage2_tarball [Except.error (PyExc.commonError "x")]
        = (Except.ok PyRet.pyNone, ["x"]) ∧ pyTruthy PyRet.pyNone = false)
    ∧ make_stage2_tarball [] = (Except.ok PyRet.pyTrue, [])
    ∧ make_stage2_tarball [Except.error (PyExc.otherError "KeyError")]
        = (Except.error (PyExc.otherError "KeyError"), []) :=
  ⟨(c2_make_stage2_tarball_error_handling [Except.error (PyExc.commonError "x")]).2.1
      "x" (by decide),
   (c2_make_stage2_tarball_error_handling []).1 (by decide),
   (c2_make_stage2_tarball_error_handling [Except.error (PyExc.otherError "KeyError")]).2.2
      (PyExc.otherError "KeyError") (by decide) (by decide)⟩

/-- Claim C3 (counterexample): when `rpm -qa` exits non-zero,
`write_package_list_file` raises `subprocess.CalledProcessError`, which is
NOT the domain-specific `common.Error` kind (so the top-level
`except Error:` would not catch it). -/
theorem c3_counterexample :
    write_package_list_file "/stage2" 1 ("pkg-1-1\n".data) []
      = Except.error (PyExc.calledProcessError 1 "rpm --root /stage2 -qa")
    ∧ isDomainError (PyExc.calledProcessError 1 "rpm --root /stage2 -qa") = false := by
  constructor <;> decide

/-- Claim C3 (amended): whenever `rpm -qa` exits non-zero,
`write_package_list_file` raises `subprocess.CalledProcessError(retcode,
' '.join(cmd))` — not the domain error kind — so the top-level catch does
not handle it and it propagates; no manifest file is written. -/
theorem c3_rpm_failure_raises_calledprocesserror (stage_dir_abs : String)
    (retcode : Int) (output : List Char) (exclude_list : List String)
    (h : retcode ≠ 0) :
    write_package_list_file stage_dir_abs retcode output exclude_list
      = Except.error (PyExc.calledProcessError retcode (rpmCmdString stage_dir_abs))
    ∧ (∀ e, write_package_list_file stage_dir_abs retcode output exclude_list
        = Except.error e → isDomainError e = false)
    ∧ (∀ res, write_package_list_file stage_dir_abs retcode output exclude_list
        ≠ Except.ok res)
    ∧ (make_stage2_tarball
        [Except.error (PyExc.calledProcessError retcode (rpmCmdString stage_dir_abs))]).1
      = Except.error (PyExc.calledProcessError retcode (rpmCmdString stage_dir_abs)) := by
  have hw : write_package_list_file stage_dir_abs retcode output exclude_list
      = Except.error (PyExc.calledProcessError retcode (rpmCmdString stage_dir_abs)) := by
    unfold write_package_list_file
    rw [if_pos h]
  refine ⟨hw, ?_, ?_, rfl⟩
  · intro e he
    rw [hw] at he
    cases he
    rfl
  · intro res hres
    rw [hw] at hres
    exact Except.noConfusion hres

/-- Witness for the amended C3 theorem at `retcode = 1`. -/
theorem c3_rpm_failure_raises_calledprocesserror_witness :
    write_package_list_file "/s2" 1 ("a-1-1\n".data) ["a-1-1"]
      = Except.error (PyExc.calledProcessError 1 (rpmCmdString "/s2"))
    ∧ isDomainError (PyExc.calledProcessError 1 (rpmCmdString "/s2")) = false :=
  ⟨(c3_rpm_failure_raises_calledprocesserror "/s2" 1 ("a-1-1\n".data) ["a-1-1"]
      (by decide)).1,
   by decide⟩

/-- Claim C7 (counterexample): `line.lstrip('./')` strips every leading `.`
and `/` character, so the baseline entry `.hidden` is written as
`stage2/hidden`, not as the path-join `stage2/.hidden`; the exclude file
therefore does not contain the entry path-joined with the staging basename
for every entry. -/
theorem c7_counterexample :
    write_exclude_list [(".hidden".data)] ("stage2".data) [] = [("stage2/hidden".data)]
    ∧ pyJoin ("stage2".data) (".hidden".data) = ("stage2/.hidden".data)
    ∧ ("stage2/.hidden".data) ∉ write_exclude_list [(".hidden".data)] ("stage2".data) [] := by
  refine ⟨by decide, by decide, by decide⟩

/-- Claim C7 (amended): every baseline file-list entry appears in the
exclude list joined with the staging directory's basename after all its
leading `.` and `/` characters are stripped; for entries that do not begin
with `.` or `/` this is exactly the plain path-join of the entry. -/
theorem c7_exclude_entries_joined_after_lstrip (filelistLines : List (List Char))
    (prepend_dir : List Char) (extra_excludes : List (List Char))
    (entry : List Char) (hmem : entry ∈ filelistLines) :
    pyJoin prepend_dir (lstripDotSlash entry)
        ∈ write_exclude_list filelistLines prepend_dir extra_excludes
    ∧ (entry.head? ≠ some '.' → entry.head? ≠ some '/' →
        lstripDotSlash entry = entry) := by
  constructor
  · unfold write_exclude_list
    exact List.mem_append_left _ (List.mem_map_of_mem _ hmem)
  · intro h1 h2
    cases entry with
    | nil => rfl
    | cons c t =>
      have hc1 : c ≠ '.' := by
        intro e
        exact h1 (by simp [e])
      have hc2 : c ≠ '/' := by
        intro e
        exact h2 (by simp [e])
      simp [lstripDotSlash, List.dropWhile_cons, hc1, hc2]

/-- Witness for the amended C7 theorem: entry `etc/foo.conf` with staging
basename `stage2` appears as `stage2/etc/foo.conf`. -/
theorem c7_exclude_entries_joined_after_lstrip_witness :
    pyJoin ("stage2".data) (lstripDotSlash ("etc/foo.conf".data))
        ∈ write_exclude_list [("etc/foo.conf".data)] ("stage2".data) denyListPatterns
    ∧ lstripDotSlash ("etc/foo.conf".data) = ("etc/foo.conf".data) := by
  have h := c7_exclude_entries_joined_after_lstrip [("etc/foo.conf".data)]
    ("stage2".data) denyListPatterns ("etc/foo.conf".data) (by decide)
  exact ⟨h.1, h.2 (by decide) (by decide)⟩

/-- Claim C1 (counterexample): when the optional `stage1_filelist` is absent
from the staging root, `tar_stage_dir` passes no `--exclude-from` at all, so
the produced archive keeps deny-listed transient paths: the member
`stage2/var/log/yum.log` is archived even though `var/log/yum.log` is on
the deny-list (and matches it under tar's exclusion matching). -/
theorem c1_counterexample :
    (tar_stage_dir ("stage2".data) [("var/log/yum.log".data)] none).1
      = [("stage2/var/log/yum.log".data)]
    ∧ ("var/log/yum.log".data) ∈ denyListPatterns
    ∧ tarExcluded ("var/log/yum.log".data) ("stage2/var/log/yum.log".data) = true := by
  refine ⟨by decide, by decide, by decide⟩

/-- Claim C1 (amended): only when `stage1_filelist` is present is the merged
exclude list (deny-list constants plus prefixed baseline entries) written
and passed to tar, and then no archive member matches any pattern of the
exclude file; when `stage1_filelist` is absent, tar runs with no exclude
option and the archive is the unfiltered member list. -/
theorem c1_tar_excludes_only_with_filelist (stage_dir_base : List Char)
    (stageFiles : List (List Char)) (lines : List (List Char)) :
    (∀ m ∈ (tar_stage_dir stage_dir_base stageFiles (some lines)).1,
      ∀ pat ∈ write_exclude_list lines stage_dir_base denyListPatterns,
        tarExcluded pat m = false)
    ∧ (tar_stage_dir stage_dir_base stageFiles (some lines)).2
        = some (write_exclude_list lines stage_dir_base denyListPatterns)
    ∧ (tar_stage_dir stage_dir_base stageFiles none).1
        = stageFiles.map (fun f => stage_dir_base ++ '/' :: f)
    ∧ (tar_stage_dir stage_dir_base stageFiles none).2 = none := by
  refine ⟨?_, rfl, rfl, rfl⟩
  intro m hm pat hp
  unfold tar_stage_dir at hm
  simp only [List.mem_filter] at hm
  have h2 := hm.2
  rw [Bool.not_eq_eq_eq_not, Bool.not_true, List.any_eq_false] at h2
  exact Bool.eq_false_iff.mpr (h2 pat hp)

/-- Witness for the amended C1 theorem: with `stage1_filelist` present, a
surviving member matches no exclude pattern. -/
theorem c1_tar_excludes_only_with_filelist_witness :
    ("stage2/osg/rpm-versions.txt".data)
        ∈ (tar_stage_dir ("stage2".data)
            [("var/log/yum.log".data), ("osg/rpm-versions.txt".data), ("etc/foo.conf".data)]
            (some [("etc/foo.conf".data)])).1
    ∧ ("stage2/etc/foo.conf".data)
        ∈ write_exclude_list [("etc/foo.conf".data)] ("stage2".data) denyListPatterns
    ∧ tarExcluded ("stage2/etc/foo.conf".data) ("stage2/osg/rpm-versions.txt".data) = false := by
  have h := (c1_tar_excludes_only_with_filelist ("stage2".data)
    [("var/log/yum.log".data), ("osg/rpm-versions.txt".data), ("etc/foo.conf".data)]
    [("etc/foo.conf".data)]).1
    ("stage2/osg/rpm-versions.txt".data) (by decide)
    ("stage2/etc/foo.conf".data) (by decide)
  exact ⟨by decide, by decide, h⟩

/-! ### Order properties of the modelled Python string comparison -/

theorem charToNat_inj (a b : Char) (h : a.toNat = b.toNat) : a = b := by
  have hv : a.val = b.val := UInt32.toNat.inj h
  exact Char.eq_of_val_eq hv

theorem charListLe_refl (a : List Char) : charListLe a a = true := by
  induction a with
  | nil => rfl
  | cons c t ih => simp [charListLe, ih]

theorem charListLe_total (a b : List Char) :
    charListLe a b = true ∨ charListLe b a = true := by
  induction a generalizing b with
  | nil => left; rfl
  | cons c t ih =>
    cases b with
    | nil => right; rfl
    | cons d u =>
      by_cases h : c = d
      · subst h
        rcases ih u with h2 | h2
        · left; simp [charListLe, h2]
        · right; simp [charListLe, h2]
      · have hne : d ≠ c := fun e => h e.symm
        have htn : c.toNat ≠ d.toNat := fun e => h (charToNat_inj c d e)
        by_cases hlt : c.toNat < d.toNat
        · left; simp [charListLe, h, hlt]
        · right
          have hdl : d.toNat < c.toNat := by omega
          simp [charListLe, hne, hdl]

theorem charListLe_trans (a b c : List Char) (h1 : charListLe a b = true)
    (h2 : charListLe b c = true) : charListLe a c = true := by
  induction a generalizing b c with
  | nil => rfl
  | cons x xs ih =>
    cases b with
    | nil => simp [charListLe] at h1
    | cons y ys =>
      cases c with
      | nil => simp [charListLe] at h2
      | cons z zs =>
        by_cases hxy : x = y
        · subst hxy
          by_cases hxz : x = z
          · subst hxz
            simp only [charListLe, if_pos rfl] at h1 h2 ⊢
            exact ih ys zs h1 h2
          · simp only [charListLe, if_neg hxz] at h2 ⊢
            exact h2
        · by_cases hyz : y = z
          · subst hyz
            simp only [charListLe, if_neg hxy] at h1 ⊢
            exact h1
          · simp only [charListLe, if_neg hxy, if_neg hyz, decide_eq_true_eq] at h1 h2
            by_cases hxz : x = z
            · subst hxz
              omega
            · simp only [charListLe, if_neg hxz, decide_eq_true_eq]
              omega

theorem strLeB_refl (a : String) : strLeB a a = true := charListLe_refl a.data

theorem strLeB_trans (a b c : String) (h1 : strLeB a b = true)
    (h2 : strLeB b c = true) : strLeB a c = true :=
  charListLe_trans a.data b.data c.data h1 h2

theorem strLeB_total (a b : String) : strLeB a b = true ∨ strLeB b a = true :=
  charListLe_total a.data b.data

/-! ### Generic properties of the stable insertion sort `sortLe` -/

theorem mem_insertLe {α : Type} (le : α → α → Bool) (x a : α) (l : List α) :
    a ∈ insertLe le x l ↔ a = x ∨ a ∈ l := by
  induction l with
  | nil => simp [insertLe]
  | cons b bs ih =>
    by_cases h : le x b = true
    · simp only [insertLe, if_pos h, List.mem_cons]
    · simp only [insertLe, if_neg h, List.mem_cons, ih]
      tauto

theorem perm_insertLe {α : Type} (le : α → α → Bool) (x : α) (l : List α) :
    (insertLe le x l).Perm (x :: l) := by
  induction l with
  | nil => exact List.Perm.refl _
  | cons b bs ih =>
    by_cases h : le x b = true
    · rw [insertLe, if_pos h]
    · rw [insertLe, if_neg h]
      exact (ih.cons b).trans (List.Perm.swap x b bs)

theorem perm_sortLe {α : Type} (le : α → α → Bool) (l : List α) :
    (sortLe le l).Perm l := by
  induction l with
  | nil => exact List.Perm.refl _
  | cons x xs ih =>
    rw [sortLe]
    exact (perm_insertLe le x (sortLe le xs)).trans (ih.cons x)

theorem mem_sortLe {α : Type} (le : α → α → Bool) (a : α) (l : List α) :
    a ∈ sortLe le l ↔ a ∈ l :=
  (perm_sortLe le l).mem_iff

theorem nodup_sortLe {α : Type} (le : α → α → Bool) (l : List α) (h : l.Nodup) :
    (sortLe le l).Nodup :=
  (perm_sortLe le l).nodup_iff.mpr h

theorem pairwise_insertLe {α : Type} (le : α → α → Bool)
    (htrans : ∀ a b c, le a b = true → le b c = true → le a c = true)
    (htotal : ∀ a b, le a b = true ∨ le b a = true) (x : α) (l : List α)
    (h : l.Pairwise (fun a b => le a b = true)) :
    (insertLe le x l).Pairwise (fun a b => le a b = true) := by
  induction l with
  | nil => simp [insertLe]
  | cons b bs ih =>
    rcases List.pairwise_cons.mp h with ⟨hb, hbs⟩
    by_cases hxb : le x b = true
    · rw [insertLe, if_pos hxb]
      refine List.pairwise_cons.mpr ⟨?_, h⟩
      intro y hy
      rcases List.mem_cons.mp hy with rfl | hy2
      · exact hxb
      · exact htrans x b y hxb (hb y hy2)
    · have hbx : le b x = true := (htotal x b).resolve_left (fun hh => hxb hh)
      rw [insertLe, if_neg hxb]
      refine List.pairwise_cons.mpr ⟨?_, ih hbs⟩
      intro y hy
      rcases (mem_insertLe le x y bs).mp hy with rfl | hy2
      · exact hbx
      · exact hb y hy2

theorem pairwise_sortLe {α : Type} (le : α → α → Bool)
    (htrans : ∀ a b c, le a b = true → le b c = true → le a c = true)
    (htotal : ∀ a b, le a b = true ∨ le b a = true) (l : List α) :
    (sortLe le l).Pairwise (fun a b => le a b = true) := by
  induction l with
  | nil => simp [sortLe]
  | cons x xs ih =>
    rw [sortLe]
    exact pairwise_insertLe le htrans htotal x _ ih

/-- Stability of `sortLe` under a string key: inserting never reorders the
elements whose key equals any fixed `k`. -/
theorem filter_insertLe_key {α : Type} (f : α → String) (x : α) (l : List α)
    (k : String) :
    (insertLe (fun a b => strLeB (f a) (f b)) x l).filter (fun a => f a == k)
    = if f x == k then x :: l.filter (fun a => f a == k)
      else l.filter (fun a => f a == k) := by
  induction l with
  | nil =>
    by_cases h : (f x == k) = true
    · simp [insertLe, List.filter_cons, h]
    · simp [insertLe, List.filter_cons, h]
  | cons b bs ih =>
    by_cases hxb : strLeB (f x) (f b) = true
    · rw [insertLe, if_pos hxb]
      by_cases h : (f x == k) = true
      · simp [List.filter_cons, h]
      · simp [List.filter_cons, h]
    · rw [insertLe, if_neg hxb]
      by_cases hbk : (f b == k) = true
      · have hfb : f b = k := eq_of_beq hbk
        have hxk : (f x == k) = false := by
          rcases Bool.eq_false_or_eq_true (f x == k) with hh | hh
          · exact absurd (by rw [eq_of_beq hh, hfb] at hxb ⊢; exact strLeB_refl k) hxb
          · exact hh
        simp [List.filter_cons, hbk, hxk, ih]
      · simp [List.filter_cons, hbk, ih]

/-- Stability of `sortLe` under a string key. -/
theorem filter_sortLe_key {α : Type} (f : α → String) (l : List α) (k : String) :
    (sortLe (fun a b => strLeB (f a) (f b)) l).filter (fun a => f a == k)
    = l.filter (fun a => f a == k) := by
  induction l with
  | nil => rfl
  | cons x xs ih =>
    rw [sortLe, filter_insertLe_key]
    by_cases h : (f x == k) = true
    · simp [List.filter_cons, h, ih]
    · simp [List.filter_cons, h, ih]

/-- Claim C6: for every sequence of patch directories, the order in which
`patch_installed_packages` applies patch files is fully determined by
sorting on the files' basenames only: the applied order is sorted by
basename (`_cmp_basename`), is a permutation of the collected glob results,
and for every basename the sub-sequence of files with that basename keeps
the directory encounter order (stable tie-break); the final conjunct is the
spec's two-directory interleaving example. -/
theorem c6_patch_order_by_basename (patch_dirs : List String)
    (globPatches : String → List String) :
    (patch_order patch_dirs globPatches).Pairwise (fun a b => patchLe a b = true)
    ∧ (∀ b0, (patch_order patch_dirs globPatches).filter (fun f => f.base == b0)
        = (collectPatchFiles patch_dirs globPatches).filter (fun f => f.base == b0))
    ∧ (patch_order patch_dirs globPatches).Perm (collectPatchFiles patch_dirs globPatches)
    ∧ patch_order ["d1", "d2"]
        (fun d => if d = "d1" then ["02-foo.patch"]
          else if d = "d2" then ["01-bar.patch", "03-baz.patch"] else [])
      = [PatchFile.mk "d2" "01-bar.patch", PatchFile.mk "d1" "02-foo.patch",
         PatchFile.mk "d2" "03-baz.patch"] := by
  refine ⟨?_, ?_, perm_sortLe patchLe _, by decide⟩
  · exact pairwise_sortLe patchLe
      (fun a b c h1 h2 => strLeB_trans a.base b.base c.base h1 h2)
      (fun a b => strLeB_total a.base b.base) _
  · intro b0
    exact filter_sortLe_key PatchFile.base (collectPatchFiles patch_dirs globPatches) b0

/-- Claim C8: for every rpm output and baseline exclusion set,
`write_package_list_file` writes to `<staging root>/osg/rpm-versions.txt`
exactly the installed-minus-baseline set: a de-duplicated, sorted,
newline-joined, trailing-newline-terminated list containing a package name
iff it is in the rpm output and not excluded; the final conjunct is the
spec's example (baseline a-1-1, b-2-1; installed a-1-1, b-2-1, c-3-1;
output exactly `c-3-1\n`). -/
theorem c8_package_list_content (stage_dir_abs : String) (rpmOutput : List Char)
    (exclude_list : List String) :
    (∃ ws : List String,
      write_package_list_file stage_dir_abs 0 rpmOutput exclude_list
        = Except.ok (stage_dir_abs ++ "/osg/rpm-versions.txt",
            String.intercalate "\n" ws ++ "\n")
      ∧ ws.Pairwise (fun a b => strLeB a b = true)
      ∧ ws.Nodup
      ∧ (∀ w, w ∈ ws ↔ w ∈ pySplit rpmOutput ∧ w ∉ exclude_list))
    ∧ write_package_list_file "/s" 0 ("a-1-1\nb-2-1\nc-3-1\n".data) ["a-1-1", "b-2-1"]
      = Except.ok ("/s/osg/rpm-versions.txt", "c-3-1\n") := by
  constructor
  · refine ⟨sortLe strLeB
      (((pySplit rpmOutput).dedup).filter (fun w => !(exclude_list.contains w))),
      ?_, ?_, ?_, ?_⟩
    · unfold write_package_list_file
      rw [if_neg (by decide : ¬ ((0 : Int) ≠ 0))]
    · exact pairwise_sortLe strLeB strLeB_trans strLeB_total _
    · exact nodup_sortLe strLeB _ (((pySplit rpmOutput).nodup_dedup).filter _)
    · intro w
      rw [mem_sortLe]
      simp only [List.mem_filter, List.mem_dedup, Bool.not_eq_eq_eq_not, Bool.not_true,
        Bool.not_eq_true]
      constructor
      · intro hh
        refine ⟨hh.1, ?_⟩
        intro hmem
        have hc : exclude_list.contains w = true := List.elem_iff.mpr hmem
        rw [hh.2] at hc
        exact Bool.noConfusion hc
      · intro hh
        refine ⟨hh.1, ?_⟩
        rcases Bool.eq_false_or_eq_true (exclude_list.contains w) with h2 | h2
        · exact absurd (List.elem_iff.mp h2) hh.2
        · exact h2

  · decide

/-! ### String lemmas for the version-rewrite claims -/

theorem startsWithL_append {α : Type} [DecidableEq α] (n x : List α) :
    startsWithL n (n ++ x) = true := by
  induction n with
  | nil => rfl
  | cons c t ih => simp [startsWithL, ih]

theorem hasSub_of_startsWithL {α : Type} [DecidableEq α] (n t : List α)
    (h : startsWithL n t = true) : hasSub n t = true := by
  cases t with
  | nil =>
    cases n with
    | nil => rfl
    | cons c u => simp [startsWithL] at h
  | cons c u => simp [hasSub, h]

theorem hasSub_cons {α : Type} [DecidableEq α] (n : List α) (c : α) (t : List α)
    (h : hasSub n t = true) : hasSub n (c :: t) = true := by
  simp [hasSub, h]

theorem hasSub_drop {α : Type} [DecidableEq α] (n t : List α) (m : Nat)
    (h : hasSub n (t.drop m) = true) : hasSub n t = true := by
  induction m generalizing t with
  | zero => simpa using h
  | succ k ih =>
    cases t with
    | nil => simpa using h
    | cons c u => exact hasSub_cons n c u (ih u (by simpa using h))

theorem hasSub_append_right {α : Type} [DecidableEq α] (n a b : List α)
    (h : hasSub n b = true) : hasSub n (a ++ b) = true := by
  induction a with
  | nil => simpa using h
  | cons c t ih => exact hasSub_cons n c (t ++ b) ih

theorem verPrefixLen_pos (s : List Char) (h : reMatchVer s = true) :
    1 ≤ verPrefixLen s := by
  cases s with
  | nil => simp [reMatchVer] at h
  | cons c t =>
    have hc : isVerChar c = true := h
    simp only [verPrefixLen, if_pos hc]
    omega

theorem mem_take_verPrefix (s : List Char) (k : Nat) (hk : k ≤ verPrefixLen s)
    (x : Char) (hx : x ∈ s.take k) : isVerChar x = true := by
  induction s generalizing k with
  | nil => simp at hx
  | cons c t ih =>
    cases k with
    | zero => simp at hx
    | succ j =>
      rw [List.take_succ_cons] at hx
      have hc : isVerChar c = true := by
        rcases Bool.eq_false_or_eq_true (isVerChar c) with hh | hh
        · exact hh
        · simp only [verPrefixLen, hh, Bool.false_eq_true, if_false] at hk
          omega
      rcases List.mem_cons.mp hx with rfl | hx2
      · exact hc
      · apply ih j ?_ hx2
        simp only [verPrefixLen, hc, if_true] at hk
        omega

theorem isVerChar_ne_newline (x : Char) (h : isVerChar x = true) : x ≠ '\n' := by
  intro e
  subst e
  exact absurd h (by decide)

theorem digitChar_ne_newline (d : Nat) : digitChar d ≠ '\n' := by
  unfold digitChar
  split_ifs <;> decide

theorem natCharsAux_ne_newline (fuel : Nat) : ∀ (n : Nat) (acc : List Char),
    (∀ c ∈ acc, c ≠ '\n') → ∀ c ∈ natCharsAux fuel n acc, c ≠ '\n' := by
  induction fuel with
  | zero => exact fun n acc hacc => hacc
  | succ f ih =>
    intro n acc hacc
    rw [natCharsAux]
    by_cases h : n < 10
    · rw [if_pos h]
      intro c hc
      rcases List.mem_cons.mp hc with rfl | hc2
      · exact digitChar_ne_newline n
      · exact hacc c hc2
    · rw [if_neg h]
      apply ih
      intro c hc
      rcases List.mem_cons.mp hc with rfl | hc2
      · exact digitChar_ne_newline _
      · exact hacc c hc2

theorem relSuffix_ne_newline (relnum : Nat) : ∀ c ∈ relSuffix relnum, c ≠ '\n' := by
  unfold relSuffix
  by_cases h : relnum = 0
  · rw [if_pos h]
    intro c hc
    simp at hc
  · rw [if_neg h]
    intro c hc
    rcases List.mem_cons.mp hc with rfl | hc2
    · decide
    · exact natCharsAux_ne_newline (relnum + 1) relnum []
        (fun x hx => absurd hx (List.not_mem_nil x)) c hc2

theorem readline_no_newline (s : List Char) (h : ∀ c ∈ s, c ≠ '\n') :
    readline s = s := by
  induction s with
  | nil => rfl
  | cons c t ih =>
    rw [readline, if_neg (h c (List.mem_cons_self c t)),
      ih (fun x hx => h x (List.mem_cons_of_mem c hx))]

theorem readline_append (a b : List Char) (h : ∀ c ∈ a, c ≠ '\n') :
    readline (a ++ b) = a ++ readline b := by
  induction a with
  | nil => rfl
  | cons c t ih =>
    rw [List.cons_append, readline, if_neg (h c (List.mem_cons_self c t)),
      ih (fun x hx => h x (List.mem_cons_of_mem c hx)), List.cons_append]

theorem readline_readline (s : List Char) : readline (readline s) = readline s := by
  induction s with
  | nil => rfl
  | cons c t ih =>
    by_cases h : c = '\n'
    · subst h
      rw [readline, if_pos rfl]
      rfl
    · rw [readline, if_neg h, readline, if_neg h, ih]

theorem readline_drop (t : List Char) (n : Nat) (h : readline t = t) :
    readline (t.drop n) = t.drop n := by
  induction n generalizing t with
  | zero => simpa using h
  | succ k ih =>
    cases t with
    | nil => rfl
    | cons c u =>
      rw [List.drop_succ_cons]
      apply ih
      rw [readline] at h
      by_cases hc : c = '\n'
      · rw [if_pos hc] at h
        injection h with h1 h2
        rw [← h2]
        rfl
      · rw [if_neg hc] at h
        injection h with h1 h2

theorem chooseKAux_succ_no_tarball (s : List Char) (k : Nat)
    (hnt : hasSub tarballChars s = false) : chooseKAux s (k + 1) = some (k + 1) := by
  rw [chooseKAux, if_neg]
  intro hsw
  have h1 : hasSub tarballChars (s.drop (k + 1)) = true := by
    cases hd : s.drop (k + 1) with
    | nil => rw [hd] at hsw; simp [startsWithL, tbChars] at hsw
    | cons c u =>
      rw [hd] at hsw
      simp only [tbChars, startsWithL, Bool.and_eq_true, decide_eq_true_eq] at hsw
      exact hasSub_cons tarballChars c u (hasSub_of_startsWithL _ _ hsw.2)
  have h2 := hasSub_drop tarballChars s (k + 1) h1
  rw [hnt] at h2
  exact Bool.noConfusion h2

theorem reSubTarball_eq (rel s : List Char) (hM : reMatchVer s = true)
    (hnt : hasSub tarballChars s = false) :
    reSubTarball rel s
      = s.take (verPrefixLen s) ++ tbChars ++ rel ++ s.drop (verPrefixLen s) := by
  unfold reSubTarball
  have h1 : 1 ≤ verPrefixLen s := verPrefixLen_pos s hM
  obtain ⟨k, hk⟩ : ∃ k, verPrefixLen s = k + 1 := ⟨verPrefixLen s - 1, by omega⟩
  rw [hk, chooseKAux_succ_no_tarball s k hnt]

/-- Properties of the spliced version string: when the current version line
is a fixed point of `readline`, starts with a `[0-9.]` character, and does
not yet contain `tarball`, the rewritten string is again a single line, is
nonempty, starts with the same `[0-9.]` character, and contains `tarball`. -/
theorem reSub_props (relnum : Nat) (s : List Char) (hs : readline s = s)
    (hM : reMatchVer s = true) (hnt : hasSub tarballChars s = false) :
    readline (reSubTarball (relSuffix relnum) s) = reSubTarball (relSuffix relnum) s
    ∧ (reSubTarball (relSuffix relnum) s).isEmpty = false
    ∧ reMatchVer (reSubTarball (relSuffix relnum) s) = true
    ∧ hasSub tarballChars (reSubTarball (relSuffix relnum) s) = true := by
  rw [reSubTarball_eq (relSuffix relnum) s hM hnt]
  have hTake : ∀ x ∈ s.take (verPrefixLen s), x ≠ '\n' :=
    fun x hx => isVerChar_ne_newline x (mem_take_verPrefix s (verPrefixLen s) le_rfl x hx)
  have hTb : ∀ x ∈ tbChars, x ≠ '\n' := by decide
  have hRel := relSuffix_ne_newline relnum
  refine ⟨?_, ?_, ?_, ?_⟩
  · rw [List.append_assoc, List.append_assoc, readline_append _ _ hTake,
      readline_append _ _ hTb, readline_append _ _ hRel, readline_drop s _ hs]
  · cases s with
    | nil => simp [reMatchVer] at hM
    | cons c0 t =>
      have hc : isVerChar c0 = true := hM
      simp only [verPrefixLen, hc, if_true, List.take_succ_cons, List.cons_append,
        List.isEmpty_cons]
  · cases s with
    | nil => simp [reMatchVer] at hM
    | cons c0 t =>
      have hc : isVerChar c0 = true := hM
      simp only [verPrefixLen, hc, if_true, List.take_succ_cons, List.cons_append]
      exact hc
  · rw [List.append_assoc, List.append_assoc]
    apply hasSub_append_right
    have he : tbChars ++ (relSuffix relnum ++ s.drop (verPrefixLen s))
        = '-' :: (tarballChars ++ (relSuffix relnum ++ s.drop (verPrefixLen s))) := rfl
    rw [he]
    exact hasSub_cons _ _ _ (hasSub_of_startsWithL _ _ (startsWithL_append _ _))

/-- Claim C4: `fix_osg_version` is idempotent — for every file content whose
version line does not already contain the substring `tarball` and for every
release number, if a first application succeeds and yields content `c`, a
second application over `c` yields `c` again. -/
theorem c4_fix_osg_version_idempotent (relnum : Nat) (content c : List Char)
    (hnt : hasSub tarballChars (readline content) = false)
    (h : fix_osg_version relnum content = Except.ok c) :
    fix_osg_version relnum c = Except.ok c := by
  unfold fix_osg_version at h
  dsimp only at h
  split_ifs at h with h1 h2 h3
  · rw [hnt] at h3
    exact Bool.noConfusion h3
  · injection h with hc
    subst hc
    have hM : reMatchVer (readline content) = true := by simpa using h2
    obtain ⟨hA, hB, hC, hD⟩ :=
      reSub_props relnum (readline content) (readline_readline content) hM hnt
    unfold fix_osg_version
    dsimp only
    rw [hA]
    simp [hB, hC, hD]

/-- Witness for the C4 theorem: `"3.4.5\n"` with release number 2 rewrites
to `"3.4.5-tarball-2\n"`, and re-running leaves that unchanged. -/
theorem c4_fix_osg_version_idempotent_witness :
    hasSub tarballChars (readline ("3.4.5\n".data)) = false
    ∧ fix_osg_version 2 ("3.4.5\n".data) = Except.ok ("3.4.5-tarball-2\n".data)
    ∧ fix_osg_version 2 ("3.4.5-tarball-2\n".data)
        = Except.ok ("3.4.5-tarball-2\n".data) :=
  ⟨by decide, by decide,
   c4_fix_osg_version_idempotent 2 ("3.4.5\n".data) ("3.4.5-tarball-2\n".data)
     (by decide) (by decide)⟩

/-- Claim C10: for every version marker file with more than one line,
`fix_osg_version` reads only the first line (the result equals the result on
the first line alone), and on success the written content is a single line —
the possibly-suffixed first line — silently discarding all later lines. -/
theorem c10_fix_osg_version_discards_rest (relnum : Nat) (content : List Char)
    (hml : content ≠ readline content) :
    fix_osg_version relnum content = fix_osg_version relnum (readline content)
    ∧ ∀ c, fix_osg_version relnum content = Except.ok c →
        readline c = c
        ∧ (c = readline content
            ∨ c = reSubTarball (relSuffix relnum) (readline content)) := by
  constructor
  · unfold fix_osg_version
    dsimp only
    rw [readline_readline]
  · intro c h
    unfold fix_osg_version at h
    dsimp only at h
    split_ifs at h with h1 h2 h3
    · injection h with hc
      subst hc
      exact ⟨readline_readline content, Or.inl rfl⟩
    · injection h with hc
      subst hc
      have hM : reMatchVer (readline content) = true := by simpa using h2
      have hnt : hasSub tarballChars (readline content) = false := by
        rcases Bool.eq_false_or_eq_true (hasSub tarballChars (readline content)) with hh | hh
        · exact absurd hh h3
        · exact hh
      obtain ⟨hA, _, _, _⟩ :=
        reSub_props relnum (readline content) (readline_readline content) hM hnt
      exact ⟨hA, Or.inr rfl⟩

/-- Witness for the C10 theorem at the two-line file `"3.4\nsecond\n"`. -/
theorem c10_fix_osg_version_discards_rest_witness :
    fix_osg_version 1 ("3.4\nsecond\n".data)
        = fix_osg_version 1 (readline ("3.4\nsecond\n".data))
    ∧ readline ("3.4-tarball-1\n".data) = ("3.4-tarball-1\n".data) := by
  have h := c10_fix_osg_version_discards_rest 1 ("3.4\nsecond\n".data) (by decide)
  exact ⟨h.1, (h.2 ("3.4-tarball-1\n".data) (by decide)).1⟩

/-! ### Path and filesystem lemmas for the alternatives-symlink claim -/

theorem commonPrefixLen_le_left {α : Type} [DecidableEq α] (a b : List α) :
    commonPrefixLen a b ≤ a.length := by
  induction a generalizing b with
  | nil => cases b <;> simp [commonPrefixLen]
  | cons x xs ih =>
    cases b with
    | nil => simp [commonPrefixLen]
    | cons y ys =>
      by_cases h : x = y
      · simp only [commonPrefixLen, if_pos h, List.length_cons]
        have := ih ys
        omega
      · simp [commonPrefixLen, h]

theorem commonPrefixLen_le_right {α : Type} [DecidableEq α] (a b : List α) :
    commonPrefixLen a b ≤ b.length := by
  induction a generalizing b with
  | nil => cases b <;> simp [commonPrefixLen]
  | cons x xs ih =>
    cases b with
    | nil => simp [commonPrefixLen]
    | cons y ys =>
      by_cases h : x = y
      · simp only [commonPrefixLen, if_pos h, List.length_cons]
        have := ih ys
        omega
      · simp [commonPrefixLen, h]

theorem take_commonPrefixLen_eq {α : Type} [DecidableEq α] (a b : List α) :
    a.take (commonPrefixLen a b) = b.take (commonPrefixLen a b) := by
  induction a generalizing b with
  | nil => cases b <;> simp [commonPrefixLen]
  | cons x xs ih =>
    cases b with
    | nil => simp [commonPrefixLen]
    | cons y ys =>
      by_cases h : x = y
      · simp only [commonPrefixLen, if_pos h, List.take_succ_cons]
        rw [h, ih ys]
      · simp [commonPrefixLen, h]

theorem resolveRel_noDots (start l : List String)
    (h : ∀ c ∈ l, c ≠ "." ∧ c ≠ "..") : resolveRel start l = start ++ l := by
  induction l generalizing start with
  | nil => simp [resolveRel]
  | cons c rest ih =>
    have hc := h c (List.mem_cons_self c rest)
    rw [resolveRel, if_neg hc.2, if_neg hc.1,
      ih (start ++ [c]) (fun x hx => h x (List.mem_cons_of_mem c hx))]
    simp

theorem resolveRel_replicate_up (k : Nat) :
    ∀ (start rest : List String), k ≤ start.length →
    resolveRel start (List.replicate k (".." : String) ++ rest)
      = resolveRel (start.take (start.length - k)) rest := by
  induction k with
  | zero =>
    intro start rest hk
    simp [List.take_length]
  | succ j ih =>
    intro start rest hk
    rw [List.replicate_succ, List.cons_append, resolveRel, if_pos rfl]
    have hlen : j ≤ start.dropLast.length := by
      rw [List.length_dropLast]
      omega
    rw [ih start.dropLast rest hlen]
    have harg : start.dropLast.take (start.dropLast.length - j)
        = start.take (start.length - (j + 1)) := by
      rw [List.length_dropLast, List.dropLast_eq_take, List.take_take]
      congr 1
      omega
    rw [harg]

/-- Correctness of `os.path.relpath` against resolution: resolving the
relative path from `start` back to `p` yields `p` (for dot-free `p`). -/
theorem resolveRel_relpath (p start : List String)
    (h1 : ("." : String) ∉ p) (h2 : (".." : String) ∉ p) :
    resolveRel start (relpathComps p start) = p := by
  unfold relpathComps
  dsimp only
  by_cases hE : (List.replicate (start.length - commonPrefixLen p start) (".." : String)
      ++ p.drop (commonPrefixLen p start)).isEmpty = true
  · rw [if_pos hE]
    rw [List.isEmpty_iff] at hE
    have h0 := List.append_eq_nil.mp hE
    have hk : start.length - commonPrefixLen p start = 0 :=
      (List.replicate_eq_nil_iff (".." : String)).mp h0.1
    have hple : p.length ≤ commonPrefixLen p start :=
      List.drop_eq_nil_iff.mp h0.2
    have hi1 : commonPrefixLen p start ≤ p.length := commonPrefixLen_le_left p start
    have hi2 : commonPrefixLen p start ≤ start.length := commonPrefixLen_le_right p start
    have hps : p = start := by
      have t1 := take_commonPrefixLen_eq p start
      have hieq : commonPrefixLen p start = p.length := by omega
      have hpls : p.length = start.length := by omega
      rw [hieq, List.take_length, hpls, List.take_length] at t1
      exact t1
    rw [hps]
    rw [resolveRel, if_neg (by decide), if_pos rfl]
    rfl
  · rw [if_neg hE]
    have hi2 : commonPrefixLen p start ≤ start.length := commonPrefixLen_le_right p start
    rw [resolveRel_replicate_up (start.length - commonPrefixLen p start) start
      (p.drop (commonPrefixLen p start)) (by omega)]
    have hsub : start.length - (start.length - commonPrefixLen p start)
        = commonPrefixLen p start := by omega
    rw [hsub]
    rw [resolveRel_noDots]
    · rw [← take_commonPrefixLen_eq p start]
      exact List.take_append_drop (commonPrefixLen p start) p
    · intro c hc
      have hcp : c ∈ p := List.mem_of_mem_drop hc
      exact ⟨fun e => h1 (e ▸ hcp), fun e => h2 (e ▸ hcp)⟩

theorem targetEtcAlt_cons (tc : List String) :
    targetIsEtcAlternatives true ("etc" :: "alternatives" :: tc) = true := by
  simp [targetIsEtcAlternatives, etcAlternativesComps, startsWithL]

theorem processAltFile_ne (root : List String) (fs : FS) (q p : List String)
    (h : p ≠ q) : processAltFile root fs q p = fs p := by
  unfold processAltFile
  cases h2 : altNewTarget root fs q with
  | none => rfl
  | some nl =>
    dsimp only
    exact if_neg h

theorem processAltFile_self (root : List String) (fs : FS) (q nl : List String)
    (h : altNewTarget root fs q = some nl) :
    processAltFile root fs q q = some (FSEntry.symlink false nl) := by
  unfold processAltFile
  rw [h]
  dsimp only
  exact if_pos rfl

theorem processAltFile_noop (root : List String) (fs : FS) (q : List String)
    (h : altNewTarget root fs q = none) : processAltFile root fs q = fs := by
  unfold processAltFile
  rw [h]

theorem altNewTarget_none_notlink (root : List String) (fs : FS) (q : List String)
    (h : fs q = some FSEntry.file) : altNewTarget root fs q = none := by
  unfold altNewTarget
  rw [h]

theorem altNewTarget_none_notalt (root : List String) (fs : FS) (q : List String)
    (a : Bool) (c : List String) (h : fs q = some (FSEntry.symlink a c))
    (h2 : targetIsEtcAlternatives a c = false) : altNewTarget root fs q = none := by
  have hn : ¬ (targetIsEtcAlternatives a c = true) := by
    rw [h2]
    exact fun hh => Bool.noConfusion hh
  unfold altNewTarget
  rw [h]
  dsimp only
  exact if_neg hn

theorem fix_alt_preserve (root p : List String) (v : Option FSEntry) :
    ∀ (l : List (List String)),
    (∀ (g : FS) (q : List String), q ∈ l → g p = v → processAltFile root g q p = v) →
    ∀ fs : FS, fs p = v → fix_alternatives_symlinks root l fs p = v := by
  intro l
  induction l with
  | nil => exact fun _ fs hv => hv
  | cons q rest ih =>
    intro hstep fs hv
    exact ih (fun g q2 hq2 hg => hstep g q2 (List.mem_cons_of_mem q hq2) hg)
      (processAltFile root fs q) (hstep fs q (List.mem_cons_self q rest) hv)

/-- Claim C5: for a symlink `afilepath` under the walked `usr/` subtree
whose target is the absolute alternatives path `/etc/alternatives/...`, and
whose two-step chain (the alternatives symlink inside the staging root,
then that link's absolute target resolved inside the staging root) reaches
an existing regular file, `fix_alternatives_symlinks` rewrites `afilepath`
to a relative symlink whose target is `os.path.relpath(final_target,
dirname(afilepath))`; that relative target resolves from the containing
directory directly to the final target, and it no longer points into
`/etc/alternatives`.  The hypotheses require `afilepath` to occur exactly
once in the walk list and the final target path to be dot-free. -/
theorem c5_fix_alternatives_symlinks_rewrites (stage_dir_abs : List String)
    (fs : FS) (l1 l2 : List (List String)) (afilepath tc t2c : List String)
    (h1 : fs afilepath = some (FSEntry.symlink true ("etc" :: "alternatives" :: tc)))
    (h2 : fs (stage_dir_abs ++ "etc" :: "alternatives" :: tc)
        = some (FSEntry.symlink true t2c))
    (h3 : fs (stage_dir_abs ++ t2c) = some FSEntry.file)
    (h4 : targetIsEtcAlternatives true t2c = false)
    (h5 : afilepath ∉ l1) (h6 : afilepath ∉ l2)
    (h7 : ("." : String) ∉ stage_dir_abs ++ t2c)
    (h8 : (".." : String) ∉ stage_dir_abs ++ t2c) :
    fix_alternatives_symlinks stage_dir_abs (l1 ++ afilepath :: l2) fs afilepath
      = some (FSEntry.symlink false
          (relpathComps (stage_dir_abs ++ t2c) afilepath.dropLast))
    ∧ resolveRel afilepath.dropLast
        (relpathComps (stage_dir_abs ++ t2c) afilepath.dropLast)
      = stage_dir_abs ++ t2c
    ∧ targetIsEtcAlternatives false
        (relpathComps (stage_dir_abs ++ t2c) afilepath.dropLast) = false := by
  have halt : ∀ g : FS,
      g afilepath = some (FSEntry.symlink true ("etc" :: "alternatives" :: tc)) →
      g (stage_dir_abs ++ "etc" :: "alternatives" :: tc)
        = some (FSEntry.symlink true t2c) →
      g (stage_dir_abs ++ t2c) = some FSEntry.file →
      altNewTarget stage_dir_abs g afilepath
        = some (relpathComps (stage_dir_abs ++ t2c) afilepath.dropLast) := by
    intro g hg1 hg2 hg3
    unfold altNewTarget
    rw [hg1]
    dsimp only
    rw [if_pos (targetEtcAlt_cons tc), hg2]
    dsimp only
    rw [hg3]
    rfl
  have k1 : fix_alternatives_symlinks stage_dir_abs l1 fs afilepath
      = some (FSEntry.symlink true ("etc" :: "alternatives" :: tc)) := by
    apply fix_alt_preserve stage_dir_abs afilepath _ l1 ?_ fs h1
    intro g q hq hg
    rw [processAltFile_ne stage_dir_abs g q afilepath (by intro e; subst e; exact h5 hq)]
    exact hg
  have k2 : fix_alternatives_symlinks stage_dir_abs l1 fs
      (stage_dir_abs ++ "etc" :: "alternatives" :: tc)
      = some (FSEntry.symlink true t2c) := by
    apply fix_alt_preserve stage_dir_abs _ _ l1 ?_ fs h2
    intro g q hq hg
    by_cases hqe : stage_dir_abs ++ "etc" :: "alternatives" :: tc = q
    · rw [processAltFile_noop stage_dir_abs g q
        (altNewTarget_none_notalt stage_dir_abs g q true t2c (hqe ▸ hg) h4)]
      exact hg
    · rw [processAltFile_ne stage_dir_abs g q _ hqe]
      exact hg
  have k3 : fix_alternatives_symlinks stage_dir_abs l1 fs (stage_dir_abs ++ t2c)
      = some FSEntry.file := by
    apply fix_alt_preserve stage_dir_abs _ _ l1 ?_ fs h3
    intro g q hq hg
    by_cases hqe : stage_dir_abs ++ t2c = q
    · rw [processAltFile_noop stage_dir_abs g q
        (altNewTarget_none_notlink stage_dir_abs g q (hqe ▸ hg))]
      exact hg
    · rw [processAltFile_ne stage_dir_abs g q _ hqe]
      exact hg
  have hfold : fix_alternatives_symlinks stage_dir_abs (l1 ++ afilepath :: l2) fs
      = fix_alternatives_symlinks stage_dir_abs l2
          (processAltFile stage_dir_abs
            (fix_alternatives_symlinks stage_dir_abs l1 fs) afilepath) := by
    unfold fix_alternatives_symlinks
    rw [List.foldl_append, List.foldl_cons]
  have hstep2 : processAltFile stage_dir_abs
      (fix_alternatives_symlinks stage_dir_abs l1 fs) afilepath afilepath
      = some (FSEntry.symlink false
          (relpathComps (stage_dir_abs ++ t2c) afilepath.dropLast)) :=
    processAltFile_self stage_dir_abs _ afilepath _
      (halt (fix_alternatives_symlinks stage_dir_abs l1 fs) k1 k2 k3)
  have hmain : fix_alternatives_symlinks stage_dir_abs (l1 ++ afilepath :: l2) fs afilepath
      = some (FSEntry.symlink false
          (relpathComps (stage_dir_abs ++ t2c) afilepath.dropLast)) := by
    rw [hfold]
    apply fix_alt_preserve stage_dir_abs afilepath _ l2 ?_ _ hstep2
    intro g q hq hg
    rw [processAltFile_ne stage_dir_abs g q afilepath (by intro e; subst e; exact h6 hq)]
    exact hg
  exact ⟨hmain, resolveRel_relpath (stage_dir_abs ++ t2c) afilepath.dropLast h7 h8,
    by simp [targetIsEtcAlternatives]⟩

/-- Witness for the C5 theorem at the spec's example: `usr/bin/x ->
/etc/alternatives/x -> /usr/bin/x-real` becomes a relative link (`x-real`)
from `usr/bin` directly to `usr/bin/x-real`. -/
theorem c5_fix_alternatives_symlinks_rewrites_witness :
    (fix_alternatives_symlinks ["r", "stage2"]
        ([] ++ ["r", "stage2", "usr", "bin", "x"]
          :: [["r", "stage2", "usr", "bin", "x-real"]])
        c5WitnessFS ["r", "stage2", "usr", "bin", "x"]
      = some (FSEntry.symlink false
          (relpathComps (["r", "stage2"] ++ ["usr", "bin", "x-real"])
            (["r", "stage2", "usr", "bin", "x"]).dropLast))
    ∧ resolveRel (["r", "stage2", "usr", "bin", "x"]).dropLast
        (relpathComps (["r", "stage2"] ++ ["usr", "bin", "x-real"])
          (["r", "stage2", "usr", "bin", "x"]).dropLast)
      = ["r", "stage2"] ++ ["usr", "bin", "x-real"]
    ∧ targetIsEtcAlternatives false
        (relpathComps (["r", "stage2"] ++ ["usr", "bin", "x-real"])
          (["r", "stage2", "usr", "bin", "x"]).dropLast) = false)
    ∧ relpathComps (["r", "stage2"] ++ ["usr", "bin", "x-real"])
        (["r", "stage2", "usr", "bin", "x"]).dropLast = ["x-real"] :=
  ⟨c5_fix_alternatives_symlinks_rewrites ["r", "stage2"] c5WitnessFS []
      [["r", "stage2", "usr", "bin", "x-real"]] ["r", "stage2", "usr", "bin", "x"]
      ["x"] ["usr", "bin", "x-real"]
      (by decide) (by decide) (by decide) (by decide) (by decide) (by decide)
      (by decide) (by decide),
   by decide⟩
